import Mathlib

/-!
# Verification of the planeshift core (layer tree, transactions, promise,
# software compositor)

A shallow embedding of the platform-independent core of the `planeshift`
compositing library, translated from `src/lib.rs` and the software-compositor
backend `src/backends/gl.rs`, together with theorems settling the frozen
claims about it.

Modelling conventions:
* `LayerMap<T>` (`Vec<Option<T>>`) is embedded as `List (Option T)`.
* Machine floats (`f32` rectangles, depth values) are embedded as rationals;
  the geometric operations involved (adding origins, min/max bounding boxes,
  adding/subtracting the fixed depth quantum `1/4096`) are exact in this
  fragment.
* Operations that can hit a `debug_assert!`, an out-of-bounds `unwrap`, or a
  `u32` underflow return `Option`: `none` models the fatal precondition
  violation (panic), `some` the updated state.
* Calls into the `Backend` trait are recorded in an event list, since the
  claims speak about which backend hooks fire and in which order.
-/

namespace Planeshift

/-! ## Rectangles

`euclid::Rect<f32>` (origin + size).  The spec defines the dirty-rect union
as the minimal bounding box; `euclid` is an external dependency of the
repository, so `union` is embedded as that minimal bounding box over `ℚ`.
`translate` adds a vector to the origin, as in `euclid`.
-/

structure RectQ where
  ox : ℚ
  oy : ℚ
  w : ℚ
  h : ℚ
deriving DecidableEq, Repr

/-- Minimal bounding box of two rectangles (the spec's "unioned (minimal
bounding box)"; `Rect::union` of the external `euclid` dependency). -/
def RectQ.union (a b : RectQ) : RectQ :=
  let minx := min a.ox b.ox
  let miny := min a.oy b.oy
  let maxx := max (a.ox + a.w) (b.ox + b.w)
  let maxy := max (a.oy + a.h) (b.oy + b.h)
  ⟨minx, miny, maxx - minx, maxy - miny⟩

/-- `Rect::translate`: shift the origin by a vector. -/
def RectQ.translate (r : RectQ) (dx dy : ℚ) : RectQ :=
  { r with ox := r.ox + dx, oy := r.oy + dy }

theorem RectQ.union_comm (a b : RectQ) : a.union b = b.union a := by
  simp [RectQ.union, min_comm, max_comm]

theorem RectQ.union_assoc (a b c : RectQ) :
    (a.union b).union c = a.union (b.union c) := by
  have key : ∀ x y : ℚ, x + (y - x) = y := by intro x y; ring
  simp [RectQ.union, key, min_assoc, max_assoc]

theorem RectQ.union_left_comm (a b c : RectQ) :
    a.union (b.union c) = b.union (a.union c) := by
  rw [← RectQ.union_assoc, RectQ.union_comm a b, RectQ.union_assoc]

/-! ## The component store: `LayerMap<T>` = `Vec<Option<T>>` -/

/-- `pub struct LayerMap<T>(pub Vec<Option<T>>)`. -/
structure LayerMap (T : Type) where
  entries : List (Option T)
deriving DecidableEq, Repr

namespace LayerMap

/-- Helper: lookup in the backing vector (`none` out of bounds or vacant). -/
def dget {T : Type} (l : List (Option T)) (i : Nat) : Option T :=
  l.getD i none

/-- Optional lookup (`LayerMap::get`): out-of-bounds or vacant entries give
`none`. -/
def get {T : Type} (m : LayerMap T) (i : Nat) : Option T :=
  dget m.entries i

/-- Grow the backing vector with `None` entries until index `n - 1` exists
(the `while self.0.len() <= id` push loop). -/
def growTo {T : Type} (m : LayerMap T) (n : Nat) : LayerMap T :=
  ⟨m.entries ++ List.replicate (n - m.entries.length) none⟩

/-- `LayerMap::add`: grows the store, `debug_assert!`s the slot is vacant
(modelled by `none` on violation), then fills it. -/
def add {T : Type} (m : LayerMap T) (i : Nat) (v : T) : Option (LayerMap T) :=
  if (m.get i).isSome then none
  else some ⟨(m.growTo (i + 1)).entries.set i (some v)⟩

/-- Mutation through `IndexMut` (`self.map[id].field = x`): panics (`none`)
if the entry is absent. -/
def modify {T : Type} (m : LayerMap T) (i : Nat) (f : T → T) : Option (LayerMap T) :=
  match m.get i with
  | none => none
  | some v => some ⟨m.entries.set i (some (f v))⟩

/-- `LayerMap::remove_if_present` / the effect of `take` on the store:
vacate the slot (a no-op when the index is out of bounds). -/
def erase {T : Type} (m : LayerMap T) (i : Nat) : LayerMap T :=
  ⟨m.entries.set i none⟩

theorem dget_nil {T : Type} (i : Nat) : dget ([] : List (Option T)) i = none := by
  cases i <;> rfl

theorem dget_set {T : Type} (l : List (Option T)) (i j : Nat) (v : Option T) :
    dget (l.set i v) j = if i = j ∧ j < l.length then v else dget l j := by
  induction l generalizing i j with
  | nil => simp [dget]
  | cons a as ih =>
    cases i with
    | zero =>
      cases j with
      | zero => simp [dget]
      | succ j => simp [dget, List.set]
    | succ i =>
      cases j with
      | zero => simp [dget, List.set]
      | succ j =>
        simp only [List.set, dget, List.getD_cons_succ] at *
        rw [ih i j]
        simp [Nat.succ_lt_succ_iff]

theorem dget_eq_none_of_le {T : Type} (l : List (Option T)) (j : Nat)
    (h : l.length ≤ j) : dget l j = none := by
  unfold dget
  rw [List.getD_eq_getElem?_getD, List.getElem?_eq_none h]
  rfl

theorem get_growTo {T : Type} (m : LayerMap T) (n : Nat) (j : Nat) :
    (m.growTo n).get j = m.get j := by
  obtain ⟨l⟩ := m
  show dget (l ++ List.replicate (n - l.length) none) j = dget l j
  by_cases hj : j < l.length
  · unfold dget
    rw [List.getD_eq_getElem?_getD, List.getD_eq_getElem?_getD,
        List.getElem?_append_left hj]
  · rw [dget_eq_none_of_le l j (by omega)]
    by_cases hj2 : j < l.length + (n - l.length)
    · unfold dget
      rw [List.getD_eq_getElem?_getD,
          List.getElem?_append_right (by omega)]
      rw [List.getElem?_replicate]
      have hr : j - l.length < n - l.length := by omega
      simp [hr]
    · apply dget_eq_none_of_le
      simp only [List.length_append, List.length_replicate]
      omega

theorem length_growTo {T : Type} (m : LayerMap T) (n : Nat) :
    n ≤ (m.growTo n).entries.length := by
  simp only [growTo, List.length_append, List.length_replicate]
  omega

theorem get_add {T : Type} {m m' : LayerMap T} {i : Nat} {v : T}
    (h : m.add i v = some m') (j : Nat) :
    m'.get j = if i = j then some v else m.get j := by
  unfold add at h
  by_cases hv : (m.get i).isSome
  · simp [hv] at h
  · simp only [hv, Bool.false_eq_true, if_false, Option.some.injEq] at h
    subst h
    show dget _ j = _
    rw [dget_set]
    by_cases hij : i = j
    · subst hij
      have hlen : i < (m.growTo (i + 1)).entries.length :=
        Nat.lt_of_lt_of_le (Nat.lt_succ_self i) (length_growTo m (i + 1))
      simp [hlen]
    · simpa [hij] using get_growTo m (i + 1) j

theorem add_isSome_iff {T : Type} (m : LayerMap T) (i : Nat) (v : T) :
    (m.add i v).isSome ↔ m.get i = none := by
  unfold add
  cases h : m.get i <;> simp [h]

theorem get_lt_length {T : Type} {m : LayerMap T} {i : Nat} {v : T}
    (h : m.get i = some v) : i < m.entries.length := by
  by_contra hlen
  rw [show m.get i = dget m.entries i from rfl,
      dget_eq_none_of_le m.entries i (by omega)] at h
  exact Option.noConfusion h

theorem get_modify {T : Type} {m m' : LayerMap T} {i : Nat} {f : T → T}
    (h : m.modify i f = some m') (j : Nat) :
    m'.get j = if i = j then (m.get i).map f else m.get j := by
  unfold modify at h
  cases hv : m.get i with
  | none => simp [hv] at h
  | some v =>
    simp only [hv, Option.some.injEq] at h
    subst h
    show dget _ j = _
    rw [dget_set]
    by_cases hij : i = j
    · subst hij
      simp [get_lt_length hv, hv]
    · simp [hij]
      rfl

theorem modify_isSome {T : Type} {m m' : LayerMap T} {i : Nat} {f : T → T}
    (h : m.modify i f = some m') : (m.get i).isSome := by
  unfold modify at h
  cases hv : m.get i <;> simp [hv] at h ⊢

theorem get_erase {T : Type} (m : LayerMap T) (i j : Nat) :
    (m.erase i).get j = if i = j then none else m.get j := by
  show dget (m.entries.set i none) j = _
  rw [dget_set]
  by_cases hij : i = j
  · subst hij
    by_cases hlen : i < m.entries.length
    · simp [hlen]
    · simp only [hlen, and_false, if_false, if_true]
      exact dget_eq_none_of_le m.entries i (by omega)
  · simp [hij]
    rfl

end LayerMap

/-! ## Components (`src/lib.rs`) -/

/-- `enum LayerParent { Layer(LayerId), NativeHost }`. -/
inductive LayerParent where
  | layer (id : Nat)
  | nativeHost
deriving DecidableEq, Repr

/-- `struct LayerTreeInfo { parent, prev_sibling, next_sibling }`. -/
structure LayerTreeInfo where
  parent : LayerParent
  prev_sibling : Option Nat
  next_sibling : Option Nat
deriving DecidableEq, Repr

/-- `struct LayerContainerInfo { first_child, last_child }`. -/
structure LayerContainerInfo where
  first_child : Option Nat
  last_child : Option Nat
deriving DecidableEq, Repr

/-- `struct LayerGeometryInfo { bounds: Rect<f32> }`. -/
structure LayerGeometryInfo where
  bounds : RectQ
deriving DecidableEq, Repr

/-- `struct LayerSurfaceInfo { options: SurfaceOptions }` — the `u8` bitset
(`OPAQUE = 0x01`, `DEPTH = 0x02`, `STENCIL = 0x04`). -/
structure LayerSurfaceInfo where
  options : Nat
deriving DecidableEq, Repr

/-- The `Backend` trait calls issued by `LayerContext` tree operations,
recorded as events. -/
inductive BackendCall where
  | addContainerLayer (l : Nat)
  | addSurfaceLayer (l : Nat)
  | insertBefore (parent new_child : Nat) (reference : Option Nat)
  | removeFromSuperlayer (l parent : Nat)
  | hostLayer (l : Nat)
  | unhostLayer (l : Nat)
  | deleteLayer (l : Nat)
deriving DecidableEq, Repr

/-- The component-store part of `LayerContext` (`src/lib.rs`), together with
the id counter and the log of backend calls.  The claims that use this state
concern operations performed inside an open transaction, so the transaction
level (verified separately, see `TxState`) is not repeated here. -/
structure Ctx where
  next_layer_id : Nat
  tree : LayerMap LayerTreeInfo
  containers : LayerMap LayerContainerInfo
  geometry : LayerMap LayerGeometryInfo
  surface : LayerMap LayerSurfaceInfo
  calls : List BackendCall
deriving DecidableEq, Repr

/-- The empty context (`LayerContext::with_backend_connection`). -/
def Ctx.empty : Ctx :=
  { next_layer_id := 0, tree := ⟨[]⟩, containers := ⟨[]⟩, geometry := ⟨[]⟩,
    surface := ⟨[]⟩, calls := [] }

/-- `LayerContext::parent_of`. -/
def Ctx.parentOf (s : Ctx) (l : Nat) : Option LayerParent :=
  (s.tree.get l).map (·.parent)

/-- `LayerContext::add_container_layer` (inside a transaction). -/
def Ctx.addContainerLayer (s : Ctx) : Option (Ctx × Nat) :=
  let l := s.next_layer_id
  (s.containers.add l ⟨none, none⟩).map fun cc =>
    ({ s with next_layer_id := l + 1, containers := cc,
              calls := s.calls ++ [.addContainerLayer l] }, l)

/-- `LayerContext::add_surface_layer` (inside a transaction). -/
def Ctx.addSurfaceLayer (s : Ctx) : Option (Ctx × Nat) :=
  let l := s.next_layer_id
  (s.surface.add l ⟨0⟩).map fun sc =>
    ({ s with next_layer_id := l + 1, surface := sc,
              calls := s.calls ++ [.addSurfaceLayer l] }, l)

/-- `LayerContext::insert_before` (inside a transaction), exactly as written
in `src/lib.rs` — including the sibling-pointer writes it actually performs.
`none` models a `debug_assert!` failure or an indexing panic. -/
def Ctx.insertBefore (s : Ctx) (parent new_child : Nat) (reference : Option Nat) :
    Option Ctx := do
  -- debug_assert_eq!(self.parent_of(reference), Some(&LayerParent::Layer(parent)))
  match reference with
  | some r => guard (s.parentOf r = some (.layer parent))
  | none => pure ()
  -- let new_prev_sibling = ...
  let new_prev ← match reference with
    | some r => (s.tree.get r).map (·.prev_sibling)
    | none => (s.containers.get parent).map (·.last_child)
  -- self.tree_component.add(new_child, ...)
  let t1 ← s.tree.add new_child ⟨.layer parent, new_prev, reference⟩
  -- match reference { Some(r) => tree[r].next_sibling = Some(new_child),
  --                   None => containers[parent].last_child = Some(new_child) }
  let (t2, c2) ← match reference with
    | some r =>
      (t1.modify r (fun ti => { ti with next_sibling := some new_child })).map
        (fun t => (t, s.containers))
    | none =>
      (s.containers.modify parent
          (fun ci => { ci with last_child := some new_child })).map
        (fun c => (t1, c))
  -- if tree[new_child].prev_sibling.is_none() { containers[parent].first_child = ... }
  let ti ← t2.get new_child
  let c3 ← if ti.prev_sibling = none then
      c2.modify parent (fun ci => { ci with first_child := some new_child })
    else pure c2
  pure { s with tree := t2, containers := c3,
                calls := s.calls ++ [.insertBefore parent new_child reference] }

/-- `LayerContext::append_child` = `insert_before(parent, child, None)`. -/
def Ctx.appendChild (s : Ctx) (parent new_child : Nat) : Option Ctx :=
  s.insertBefore parent new_child none

/-- `LayerContext::host_layer` (inside a transaction). -/
def Ctx.hostLayer (s : Ctx) (l : Nat) : Option Ctx :=
  (s.tree.add l ⟨.nativeHost, none, none⟩).map fun t =>
    { s with tree := t, calls := s.calls ++ [.hostLayer l] }

/-- `LayerContext::remove_from_parent` (inside a transaction): `take`s the
layer's `LayerTreeInfo`; a hosted layer is unhosted, a parented layer is
removed from its superlayer and spliced out of the sibling list. -/
def Ctx.removeFromParent (s : Ctx) (old_child : Nat) : Option Ctx :=
  -- let old_tree = self.tree_component.take(old_child)
  match s.tree.get old_child with
  | none => none
  | some old =>
    match old.parent with
    | .nativeHost =>
      some { s with tree := s.tree.erase old_child,
                    calls := s.calls ++ [.unhostLayer old_child] }
    | .layer parent_layer =>
      -- match old_tree.prev_sibling { ... }
      let step1 : Option (LayerMap LayerTreeInfo × LayerMap LayerContainerInfo) :=
        match old.prev_sibling with
        | none =>
          (s.containers.modify parent_layer
              (fun ci => { ci with first_child := old.next_sibling })).map
            (fun cc => (s.tree.erase old_child, cc))
        | some prev =>
          ((s.tree.erase old_child).modify prev
              (fun ti => { ti with next_sibling := old.next_sibling })).map
            (fun t => (t, s.containers))
      match step1 with
      | none => none
      | some (t1, c1) =>
        -- match old_tree.next_sibling { ... }
        let step2 : Option (LayerMap LayerTreeInfo × LayerMap LayerContainerInfo) :=
          match old.next_sibling with
          | none =>
            (c1.modify parent_layer
                (fun ci => { ci with last_child := old.prev_sibling })).map
              (fun cc => (t1, cc))
          | some next =>
            (t1.modify next
                (fun ti => { ti with prev_sibling := old.prev_sibling })).map
              (fun t => (t, c1))
        match step2 with
        | none => none
        | some (t2, c2) =>
          some { s with tree := t2, containers := c2,
                        calls := s.calls ++ [.removeFromSuperlayer old_child parent_layer] }

/-! ### Sibling-list consistency (spec §3 invariant (2), §8 bullet 1)

Forward traversal from `first_child` via `next_sibling` must terminate at
`last_child`, visiting exactly the container's children in order; reverse
traversal from `last_child` via `prev_sibling` must be its mirror.  The
traversals are fuel-bounded so that a broken (cyclic) pointer structure is
detected as inconsistent rather than looping.
-/

/-- Follow `next_sibling` links, collecting the visited layers; `none` if a
link leads to a layer without `LayerTreeInfo` or the fuel runs out (a cycle). -/
def chainForward (tree : LayerMap LayerTreeInfo) : Nat → Option Nat → Option (List Nat)
  | _, none => some []
  | 0, some _ => none
  | fuel + 1, some l =>
    match tree.get l with
    | none => none
    | some ti => (chainForward tree fuel ti.next_sibling).map (l :: ·)

/-- Follow `prev_sibling` links from `last_child`. -/
def chainBackward (tree : LayerMap LayerTreeInfo) : Nat → Option Nat → Option (List Nat)
  | _, none => some []
  | 0, some _ => none
  | fuel + 1, some l =>
    match tree.get l with
    | none => none
    | some ti => (chainBackward tree fuel ti.prev_sibling).map (l :: ·)

/-- The layers whose `LayerTreeInfo.parent` is `Layer(c)`. -/
def childrenOf (tree : LayerMap LayerTreeInfo) (c : Nat) : List Nat :=
  (List.range tree.entries.length).filter fun l =>
    match tree.get l with
    | some ti => ti.parent = .layer c
    | none => false

/-- Consistency of one container's doubly linked sibling list. -/
def containerConsistent (tree : LayerMap LayerTreeInfo) (c : Nat)
    (ci : LayerContainerInfo) : Bool :=
  let fuel := tree.entries.length + 1
  match chainForward tree fuel ci.first_child,
        chainBackward tree fuel ci.last_child with
  | some fwd, some bwd =>
    -- forward traversal terminates at last_child …
    fwd.getLast? == ci.last_child
    -- … the reverse traversal is its mirror …
    && bwd == fwd.reverse
    -- … and the traversal visits exactly the container's children.
    && decide (fwd.Perm (childrenOf tree c))
  | _, _ => false

/-- Consistency of every container in the context. -/
def ctxConsistent (s : Ctx) : Bool :=
  (List.range s.containers.entries.length).all fun c =>
    match s.containers.get c with
    | none => true
    | some ci => containerConsistent s.tree c ci

/-- `LayerContext::delete_layer` (inside a transaction): `debug_assert!`s
that the layer has no parent, then removes every component. -/
def Ctx.deleteLayer (s : Ctx) (l : Nat) : Option Ctx :=
  if s.parentOf l = none then
    some { s with tree := s.tree.erase l, containers := s.containers.erase l,
                  geometry := s.geometry.erase l, surface := s.surface.erase l,
                  calls := s.calls ++ [.deleteLayer l] }
  else none

/-! ## Claim C1 — sibling-link consistency under tree mutations

The scenario below mirrors what every multi-child user of the library does
(e.g. `examples/ring.rs` appends six children under one root): inside a
transaction, create a container (id 0) and two surface layers (ids 1, 2) and
append both under the container. -/

/-- Inside a transaction: `add_container_layer` (id 0), two
`add_surface_layer` (ids 1, 2), `append_child(0, 1)`, `append_child(0, 2)`. -/
def c1FailState : Option Ctx := do
  let (s1, root) ← Ctx.empty.addContainerLayer
  let (s2, a) ← s1.addSurfaceLayer
  let (s3, _b) ← s2.addSurfaceLayer
  let s4 ← s3.appendChild root a
  s4.appendChild root 2

/-- C1: the claim — every sequence of `insert_before`/`append_child`/
`remove_from_parent` keeps each container's sibling list a consistent doubly
linked list — fails on the code: after `append_child(0, 1)` then
`append_child(0, 2)` the container records `first_child = 1`,
`last_child = 2`, yet layer 1's `next_sibling` is still `None` (the code
never updates the previous tail's `next_sibling`; with a `Some` reference it
instead writes `reference.next_sibling`, producing a cycle), so forward
traversal from `first_child` visits only `[1]` and never reaches
`last_child = 2`. -/
theorem c1_insert_before_breaks_sibling_links :
    (c1FailState.map ctxConsistent) = some false
    ∧ (c1FailState.bind fun s => s.tree.get 1)
        = some ⟨.layer 0, none, none⟩
    ∧ (c1FailState.bind fun s => s.tree.get 2)
        = some ⟨.layer 0, some 1, none⟩
    ∧ (c1FailState.bind fun s => s.containers.get 0)
        = some ⟨some 1, some 2⟩ := by
  decide

/-! ## Transactions (`LayerContext::begin_transaction` / `end_transaction`,
`src/lib.rs`)

`transaction : Option<TransactionInfo>` holds the nesting level while open;
the backend's `end_transaction` hook fires exactly when the level returns to
zero.  Hook invocations are counted. -/

/-- The transaction-relevant state of a `LayerContext`: `level = none` is
`Idle` (`transaction == None`), `level = some n` an open transaction at
nesting level `n`; `end_calls` counts calls of the backend's
`end_transaction` hook. -/
structure TxState where
  level : Option Nat
  end_calls : Nat
deriving DecidableEq, Repr

/-- `LayerContext::begin_transaction`. -/
def beginTransaction : TxState → TxState
  | ⟨none, e⟩ => ⟨some 1, e⟩
  | ⟨some n, e⟩ => ⟨some (n + 1), e⟩

/-- `LayerContext::end_transaction`: panics (`none`) when idle
(`expect("Not in a transaction!")`); decrements the level; at level zero it
takes the transaction and calls the backend hook.  (`some 0` cannot arise
through the API; decrementing it would underflow the `u32`, modelled as
`none`.) -/
def endTransaction : TxState → Option TxState
  | ⟨none, _⟩ => none
  | ⟨some 0, _⟩ => none
  | ⟨some (n + 1), e⟩ =>
    if n > 0 then some ⟨some n, e⟩ else some ⟨none, e + 1⟩

/-- `n` successive `begin_transaction` calls. -/
def beginN : Nat → TxState → TxState
  | 0, s => s
  | n + 1, s => beginN n (beginTransaction s)

/-- `k` successive `end_transaction` calls. -/
def endN : Nat → TxState → Option TxState
  | 0, s => some s
  | k + 1, s => (endTransaction s).bind (endN k)

theorem beginN_open (n m e : Nat) :
    beginN n ⟨some m, e⟩ = ⟨some (m + n), e⟩ := by
  induction n generalizing m with
  | zero => rfl
  | succ n ih =>
    show beginN n (beginTransaction ⟨some m, e⟩) = _
    rw [show beginTransaction ⟨some m, e⟩ = ⟨some (m + 1), e⟩ from rfl, ih]
    congr 2
    omega

theorem beginN_idle (n e : Nat) (h : 1 ≤ n) :
    beginN n ⟨none, e⟩ = ⟨some n, e⟩ := by
  obtain ⟨n, rfl⟩ : ∃ m, n = m + 1 := ⟨n - 1, by omega⟩
  show beginN n (beginTransaction ⟨none, e⟩) = _
  rw [show beginTransaction ⟨none, e⟩ = ⟨some 1, e⟩ from rfl, beginN_open]
  congr 2
  omega

theorem endN_open (k m e : Nat) (hm : 1 ≤ m) (hk : k ≤ m) :
    endN k ⟨some m, e⟩
      = some (if k < m then ⟨some (m - k), e⟩ else ⟨none, e + 1⟩) := by
  induction k generalizing m with
  | zero =>
    simp only [endN]
    rw [if_pos (by omega), Nat.sub_zero]
  | succ k ih =>
    obtain ⟨m, rfl⟩ : ∃ p, m = p + 1 := ⟨m - 1, by omega⟩
    show (endTransaction ⟨some (m + 1), e⟩).bind (endN k) = _
    by_cases hm1 : m > 0
    · rw [show endTransaction ⟨some (m + 1), e⟩ = some ⟨some m, e⟩ by
        simp [endTransaction, hm1]]
      rw [Option.some_bind, ih m (by omega) (by omega)]
      by_cases hlt : k < m
      · rw [if_pos hlt, if_pos (by omega)]
        congr 3
        omega
      · rw [if_neg hlt, if_neg (by omega)]
    · have hm0 : m = 0 := by omega
      subst hm0
      rw [show endTransaction ⟨some 1, e⟩ = some ⟨none, e + 1⟩ by
        simp [endTransaction]]
      have hk0 : k = 0 := by omega
      subst hk0
      rw [Option.some_bind]
      simp [endN]

/-- C5: starting from `Idle`, `N ≥ 1` calls of `begin_transaction` followed
by `k ≤ N` calls of `end_transaction` invoke the backend's `end_transaction`
hook exactly once, on the `N`-th end and never earlier: after `k < N` ends
the state is still `Open(N − k)` with no hook call, and after the `N`-th end
the hook has fired once and the state is back to `Idle` (`None`). -/
theorem c5_nested_transactions_commit_once (N k e : Nat)
    (hN : 1 ≤ N) (hk : k ≤ N) :
    endN k (beginN N ⟨none, e⟩)
      = some (if k < N then ⟨some (N - k), e⟩ else ⟨none, e + 1⟩) := by
  rw [beginN_idle N e hN, endN_open k N e hN hk]

/-- Witness for C5 at `N = 3`: two of three ends leave the level at 1 with
no hook call; the third fires the hook once and returns to idle. -/
theorem c5_nested_transactions_commit_once_witness :
    endN 2 (beginN 3 ⟨none, 0⟩) = some ⟨some 1, 0⟩
    ∧ endN 3 (beginN 3 ⟨none, 0⟩) = some ⟨none, 1⟩ := by
  constructor
  · have h := c5_nested_transactions_commit_once 3 2 0 (by decide) (by decide)
    simpa using h
  · have h := c5_nested_transactions_commit_once 3 3 0 (by decide) (by decide)
    simpa using h

/-! ## The completion future (`TransactionPromise`, `src/lib.rs` 610–626)

The Rust struct is only a mutex-guarded `Vec<Box<dyn FnMut()>>` of queued
continuations.  Continuations are identified by numbers; `ran` logs, in
order, the continuations the promise has executed.  `then` pushes onto the
queue; `resolve` drains the queue, running everything that was in it.  The
struct stores no resolved/rejected state. -/

structure PromiseRun where
  queued : List Nat
  ran : List Nat
deriving DecidableEq, Repr

/-- `TransactionPromise::then`: `self.on_fulfilled.lock().unwrap().push(on_fulfilled)`. -/
def promiseThen (s : PromiseRun) (c : Nat) : PromiseRun :=
  { s with queued := s.queued ++ [c] }

/-- `TransactionPromise::resolve`: `mem::replace(&mut *queue, vec![])`, then
run each drained continuation in order. -/
def promiseResolve (s : PromiseRun) : PromiseRun :=
  { queued := [], ran := s.ran ++ s.queued }

/-- An operation on one promise. -/
inductive POp where
  | thenOp (c : Nat)
  | resolveOp
deriving DecidableEq, Repr

def promiseStep (s : PromiseRun) : POp → PromiseRun
  | .thenOp c => promiseThen s c
  | .resolveOp => promiseResolve s

def promiseTrace (s : PromiseRun) : List POp → PromiseRun
  | [] => s
  | op :: ops => promiseTrace (promiseStep s op) ops

/-- C3 counterexample: on the promise of `src/lib.rs` a continuation
registered *after* `resolve` is merely enqueued — it is not executed
immediately (nor ever, absent a further `resolve`): after
`resolve(); then(0)` the queue is `[0]` and nothing has run, whereas the
claim requires continuation `0` to have executed synchronously. -/
theorem c3_counterexample_then_after_resolve :
    promiseTrace ⟨[], []⟩ [.resolveOp, .thenOp 0] = ⟨[0], []⟩
    ∧ (promiseTrace ⟨[], []⟩ [.resolveOp, .thenOp 0]).ran ≠ [0] := by
  decide

/-- C3 as amended: `then` always only enqueues — it never executes the
continuation at registration time, whatever the promise's history (the code
keeps no resolved state), and the enqueued continuation runs exactly at the
next `resolve`, after the previously queued ones.  In particular the claim's
pending-promise half holds. -/
theorem c3_then_always_enqueues (s : PromiseRun) (c : Nat) :
    (promiseThen s c).ran = s.ran
    ∧ (promiseThen s c).queued = s.queued ++ [c]
    ∧ promiseResolve (promiseThen s c) = ⟨[], s.ran ++ s.queued ++ [c]⟩ := by
  refine ⟨rfl, rfl, ?_⟩
  simp [promiseResolve, promiseThen]

/-! ## The software compositor (`src/backends/gl.rs`)

Backend state: `hosted_layer: Option<LayerId>`, `dirty_rect: Option<Rect<f32>>`
— a single optional hosted root and a single accumulated dirty rectangle. -/

structure GLState where
  hosted_layer : Option Nat
  dirty_rect : Option RectQ
deriving DecidableEq, Repr

/-- `gl.rs` `Backend::host_layer`:
`debug_assert!(self.hosted_layer.is_none()); self.hosted_layer = Some(layer)`. -/
def glHostLayer (s : GLState) (l : Nat) : Option GLState :=
  if s.hosted_layer.isSome then none
  else some { s with hosted_layer := some l }

/-- `gl.rs` `Backend::unhost_layer`:
`debug_assert_eq!(self.hosted_layer, Some(layer)); self.hosted_layer = None`. -/
def glUnhostLayer (s : GLState) (l : Nat) : Option GLState :=
  if s.hosted_layer = some l then some { s with hosted_layer := none }
  else none

/-- C2 counterexample: with layer 0 already hosted, hosting the distinct
layer 1 does not succeed — it trips the `debug_assert!(hosted_layer.is_none())`
in `gl.rs` (`none` in the model).  The state carries one `hosted_layer` and
one `dirty_rect`, not a rectangle per hosted root. -/
theorem c2_counterexample_second_host_fails :
    glHostLayer ⟨some 0, none⟩ 1 = none := by
  decide

/-- C2 as amended: the software compositor hosts at most one layer at a
time — `host_layer` fails (debug-asserted) exactly when a layer is already
hosted, and succeeds, recording the unique hosted root, exactly when none
is; damage accumulates into the backend's single shared pending dirty
rectangle rather than one per hosted root. -/
theorem c2_single_hosted_layer (s : GLState) (l : Nat) :
    (glHostLayer s l = none ↔ (s.hosted_layer).isSome)
    ∧ (s.hosted_layer = none →
        glHostLayer s l = some ⟨some l, s.dirty_rect⟩) := by
  constructor
  · unfold glHostLayer
    cases h : s.hosted_layer <;> simp [h]
  · intro h
    simp [glHostLayer, h]

/-- Witness for C2's amended theorem: hosting into the fresh backend state
succeeds and records layer 7 as the hosted root. -/
theorem c2_single_hosted_layer_witness :
    glHostLayer ⟨none, none⟩ 7 = some ⟨some 7, none⟩ :=
  (c2_single_hosted_layer ⟨none, none⟩ 7).2 rfl

/-! ### Commit (`gl.rs` `Backend::end_transaction`, lines 157–224)

What matters for the claims is which actions run and in what order, so the
body is embedded as the sequence of externally visible events it performs:
the GPU render pass (clear + opaque pass + transparent pass), the resolution
of the transaction's promise, and the `connection.present(&dirty_rect)`
call. -/

inductive GLEvent where
  | renderPass
  | resolvePromise
  | present (r : RectQ)
deriving DecidableEq, Repr

/-- `gl.rs` `end_transaction`, by its `match (self.dirty_rect, self.hosted_layer)`:
`(Some, Some)` renders, clears the accumulator, resolves the promise, then
presents the dirty rectangle; `(Some, None)` clears and resolves;
`(None, _)` just resolves.  Returns the events in execution order and the
new `dirty_rect`. -/
def glEndTransaction (dirty : Option RectQ) (hosted : Option Nat) :
    List GLEvent × Option RectQ :=
  match dirty, hosted with
  | some r, some _ => ([.renderPass, .resolvePromise, .present r], none)
  | some _, none => ([.resolvePromise], none)
  | none, _ => ([.resolvePromise], none)

/-- `true` iff a `present` event occurs strictly before the first
`resolvePromise` event. -/
def presentBeforeResolve : List GLEvent → Bool
  | [] => false
  | .present _ :: _ => true
  | .resolvePromise :: _ => false
  | .renderPass :: rest => presentBeforeResolve rest

/-- C4 counterexample: with a pending dirty rectangle and a hosted root, the
commit emits `[renderPass, resolvePromise, present r]` — the promise is
resolved *before* `connection.present`, so resolution does not imply the
frame has been presented, contrary to the claim that the frame is presented
before the promise resolves. -/
theorem c4_counterexample_resolve_precedes_present :
    glEndTransaction (some ⟨0, 0, 1, 1⟩) (some 0)
      = ([.renderPass, .resolvePromise, .present ⟨0, 0, 1, 1⟩], none)
    ∧ presentBeforeResolve
        (glEndTransaction (some ⟨0, 0, 1, 1⟩) (some 0)).1 = false := by
  decide

/-- C4 as amended: in a commit with a pending dirty rectangle and a hosted
root, the render pass runs and the accumulator is cleared before the
transaction's promise is resolved, and the present of the accumulated dirty
rectangle is issued after resolution (resolution implies rendering is done,
not that the frame was presented); when no dirty rectangle was pending the
promise is resolved immediately with no GPU work, and likewise when no root
is hosted. -/
theorem c4_commit_event_order (dirty : Option RectQ) (hosted : Option Nat) :
    (glEndTransaction dirty hosted).2 = none
    ∧ presentBeforeResolve (glEndTransaction dirty hosted).1 = false
    ∧ (dirty = none → (glEndTransaction dirty hosted).1 = [.resolvePromise])
    ∧ (hosted = none → (glEndTransaction dirty hosted).1 = [.resolvePromise])
    ∧ (∀ r t, dirty = some r → hosted = some t →
        (glEndTransaction dirty hosted).1
          = [.renderPass, .resolvePromise, .present r]) := by
  cases dirty <;> cases hosted <;>
    simp [glEndTransaction, presentBeforeResolve]

/-- Witness for C4's amended theorem at concrete inputs: a commit with a
pending rectangle and hosted root renders, resolves, then presents; a commit
with no pending rectangle only resolves. -/
theorem c4_commit_event_order_witness :
    (glEndTransaction (some ⟨1, 2, 3, 4⟩) (some 5)).1
      = [.renderPass, .resolvePromise, .present ⟨1, 2, 3, 4⟩]
    ∧ (glEndTransaction none (some 5)).1 = [.resolvePromise] := by
  constructor
  · exact (c4_commit_event_order (some ⟨1, 2, 3, 4⟩) (some 5)).2.2.2.2
      ⟨1, 2, 3, 4⟩ 5 rfl rfl
  · exact (c4_commit_event_order none (some 5)).2.2.1 rfl

/-! ### Damage propagation (`gl.rs` `Backend::invalidate_layer`, lines 539–561)

`invalidate_layer` walks the ancestor chain, translating the rectangle by
each layer's own origin, until it reaches a layer whose parent is
`NativeHost` (where the rectangle is unioned into `dirty_rect`) or a layer
with no `LayerTreeInfo` (where the damage is silently dropped).  The
recursion is fuel-bounded; `γ` missing geometry on an interior layer is an
indexing panic in the code (`stuck`), and exhausted fuel (a parent cycle,
divergence in the code) is also `stuck`. -/

inductive WalkResult where
  | reached (dx dy : ℚ)
  | dropped
  | stuck
deriving DecidableEq, Repr

/-- The ancestor walk of `invalidate_layer`, returning the total translation
applied to the damage rectangle when a `NativeHost`-parented layer is
reached. -/
def walkToHost (tree : LayerMap LayerTreeInfo) (geometry : LayerMap LayerGeometryInfo) :
    Nat → Nat → WalkResult
  | 0, _ => .stuck
  | fuel + 1, l =>
    match tree.get l with
    | none => .dropped
    | some ti =>
      match ti.parent with
      | .nativeHost => .reached 0 0
      | .layer p =>
        match geometry.get l with
        | none => .stuck
        | some g =>
          match walkToHost tree geometry fuel p with
          | .reached dx dy => .reached (dx + g.bounds.ox) (dy + g.bounds.oy)
          | r => r

/-- `gl.rs` `Backend::invalidate_layer`: on reaching the hosted root, the
translated rectangle is stored (`dirty_rect = None`) or unioned
(`new.union(old)`); damage from layers not connected to a hosted root is
dropped. -/
def invalidateLayer (fuel : Nat) (tree : LayerMap LayerTreeInfo)
    (geometry : LayerMap LayerGeometryInfo) (s : GLState) (l : Nat) (r : RectQ) :
    Option GLState :=
  match walkToHost tree geometry fuel l with
  | .stuck => none
  | .dropped => some s
  | .reached dx dy =>
    let moved := r.translate dx dy
    some { s with dirty_rect := some (match s.dirty_rect with
      | none => moved
      | some old => moved.union old) }

/-- C8: dirty-rect accumulation is order-independent — invalidating damage
rectangle `A` then `B` against the same layer from the same starting state
yields exactly the same backend state (in particular the same pending
bounding-union rectangle) as invalidating `B` then `A`. -/
theorem c8_dirty_rect_accumulation_commutes (fuel : Nat)
    (tree : LayerMap LayerTreeInfo) (geometry : LayerMap LayerGeometryInfo)
    (s : GLState) (l : Nat) (A B : RectQ) :
    (invalidateLayer fuel tree geometry s l A).bind
        (fun s1 => invalidateLayer fuel tree geometry s1 l B)
      = (invalidateLayer fuel tree geometry s l B).bind
          (fun s1 => invalidateLayer fuel tree geometry s1 l A) := by
  unfold invalidateLayer
  cases hw : walkToHost tree geometry fuel l with
  | stuck => rfl
  | dropped => simp [hw]
  | reached dx dy =>
    cases hd : s.dirty_rect with
    | none =>
      simp only [hw, hd, Option.some_bind]
      rw [RectQ.union_comm]
    | some old =>
      simp only [hw, hd, Option.some_bind]
      rw [RectQ.union_left_comm]

/-- C10: a layer with no `LayerTreeInfo`, or whose ancestor chain ends
(at a layer without `LayerTreeInfo`) before reaching a `NativeHost`-parented
layer, contributes nothing: `invalidate_layer` returns with the pending
dirty rectangle (indeed the whole backend state) unchanged. -/
theorem c10_unattached_damage_dropped (fuel : Nat)
    (tree : LayerMap LayerTreeInfo) (geometry : LayerMap LayerGeometryInfo)
    (s : GLState) (l : Nat) (r : RectQ) :
    (walkToHost tree geometry fuel l = .dropped →
      invalidateLayer fuel tree geometry s l r = some s)
    ∧ (tree.get l = none → 1 ≤ fuel →
        walkToHost tree geometry fuel l = .dropped) := by
  constructor
  · intro h
    unfold invalidateLayer
    rw [h]
  · intro h hf
    obtain ⟨fuel, rfl⟩ : ∃ f, fuel = f + 1 := ⟨fuel - 1, by omega⟩
    unfold walkToHost
    rw [h]

/-- Witness for C10: layer 0's parent chain (0 → 1) ends at layer 1, which
has no `LayerTreeInfo`, so its damage is dropped and the state unchanged;
and a never-attached layer (empty tree) makes the walk report `dropped`. -/
theorem c10_unattached_damage_dropped_witness :
    invalidateLayer 2 ⟨[some ⟨.layer 1, none, none⟩]⟩ ⟨[some ⟨⟨0, 0, 4, 4⟩⟩]⟩
        ⟨some 9, none⟩ 0 ⟨1, 1, 2, 2⟩ = some ⟨some 9, none⟩
    ∧ walkToHost ⟨[]⟩ ⟨[]⟩ 1 0 = .dropped := by
  constructor
  · exact (c10_unattached_damage_dropped 2 ⟨[some ⟨.layer 1, none, none⟩]⟩
      ⟨[some ⟨⟨0, 0, 4, 4⟩⟩]⟩ ⟨some 9, none⟩ 0 ⟨1, 1, 2, 2⟩).1 (by decide)
  · exact (c10_unattached_damage_dropped 1 ⟨[]⟩ ⟨[]⟩ ⟨none, none⟩ 0
      ⟨0, 0, 0, 0⟩).2 (by decide) (by decide)

/-! ### Render passes (`gl.rs` `render_opaque_layer_subtree` /
`render_transparent_layer_subtree`, lines 563–639)

Both passes recurse over the tree: a container contributes nothing and
recurses over its children — the opaque pass from `first_child` via
`next_sibling`, the transparent pass in the mirrored order from `last_child`
via `prev_sibling`.  Every surface layer advances the shared depth counter
by `DEPTH_QUANTUM = 1/4096` (the opaque pass takes the counter then
increments; the transparent pass decrements then takes), and is drawn only
when its `OPAQUE` flag matches the pass.  A subtree reachable through the
sibling links is embedded as a rose tree; the sibling `while` loops become
folds over the child list (forward, resp. reversed). -/

/-- The fixed depth quantum `1.0 / 4096.0` (`gl.rs` line 803): exact in
binary floating point for the depth values arising here, so embedded as the
rational `1/4096`. -/
def DEPTH_QUANTUM : ℚ := 1 / 4096

mutual
/-- A subtree of the layer tree, as traversed by the render passes: a
surface layer (with its `OPAQUE` flag) or a container with an ordered list
of children. -/
inductive LTree where
  | surface (id : Nat) (opaqueFlagged : Bool) : LTree
  | container (children : LForest) : LTree
deriving DecidableEq, Repr

/-- An ordered sibling list (`first_child` to `last_child`). -/
inductive LForest where
  | nil : LForest
  | cons (t : LTree) (rest : LForest) : LForest
deriving DecidableEq, Repr
end

mutual
/-- Opaque pass: forward pre-order; on a surface layer, assign the current
counter as its depth, then advance the counter by one quantum.  Returns the
per-surface-layer depth assignments in visit order and the final counter. -/
def opaquePassT : LTree → ℚ → List (Nat × ℚ) × ℚ
  | .surface i _, d => ([(i, d)], d + DEPTH_QUANTUM)
  | .container f, d => opaquePassF f d

def opaquePassF : LForest → ℚ → List (Nat × ℚ) × ℚ
  | .nil, d => ([], d)
  | .cons t rest, d =>
    let p := opaquePassT t d
    let q := opaquePassF rest p.2
    (p.1 ++ q.1, q.2)
end

mutual
/-- Transparent pass: mirrored (reverse) order; on a surface layer, retreat
the counter by one quantum, then assign it as the depth. -/
def transparentPassT : LTree → ℚ → List (Nat × ℚ) × ℚ
  | .surface i _, d => ([(i, d - DEPTH_QUANTUM)], d - DEPTH_QUANTUM)
  | .container f, d => transparentPassF f d

def transparentPassF : LForest → ℚ → List (Nat × ℚ) × ℚ
  | .nil, d => ([], d)
  | .cons t rest, d =>
    let p := transparentPassF rest d
    let q := transparentPassT t p.2
    (p.1 ++ q.1, q.2)
end

mutual
/-- Number of surface layers in a subtree. -/
def surfaceCountT : LTree → Nat
  | .surface _ _ => 1
  | .container f => surfaceCountF f

def surfaceCountF : LForest → Nat
  | .nil => 0
  | .cons t rest => surfaceCountT t + surfaceCountF rest
end

mutual
theorem opaquePassT_final (t : LTree) (d : ℚ) :
    (opaquePassT t d).2 = d + surfaceCountT t * DEPTH_QUANTUM := by
  cases t with
  | surface i b => simp [opaquePassT, surfaceCountT]
  | container f => simpa [opaquePassT, surfaceCountT] using opaquePassF_final f d

theorem opaquePassF_final (f : LForest) (d : ℚ) :
    (opaquePassF f d).2 = d + surfaceCountF f * DEPTH_QUANTUM := by
  cases f with
  | nil => simp [opaquePassF, surfaceCountF]
  | cons t rest =>
    show (opaquePassF rest (opaquePassT t d).2).2 = _
    rw [opaquePassF_final rest, opaquePassT_final t]
    simp [surfaceCountF]
    ring
end

mutual
theorem transparentPassT_mirror (t : LTree) (d : ℚ) :
    transparentPassT t (opaquePassT t d).2 = ((opaquePassT t d).1.reverse, d) := by
  cases t with
  | surface i b => simp [opaquePassT, transparentPassT]
  | container f => simpa [opaquePassT, transparentPassT] using
      transparentPassF_mirror f d

theorem transparentPassF_mirror (f : LForest) (d : ℚ) :
    transparentPassF f (opaquePassF f d).2 = ((opaquePassF f d).1.reverse, d) := by
  cases f with
  | nil => simp [opaquePassF, transparentPassF]
  | cons t rest =>
    show transparentPassF (.cons t rest) (opaquePassF rest (opaquePassT t d).2).2 = _
    have hrest := transparentPassF_mirror rest (opaquePassT t d).2
    have ht := transparentPassT_mirror t d
    show (let p := transparentPassF rest (opaquePassF rest (opaquePassT t d).2).2
          let q := transparentPassT t p.2
          (p.1 ++ q.1, q.2)) = _
    rw [hrest]
    simp only
    rw [ht]
    simp [opaquePassF]
end

/-- C9: within one commit, the transparent (reverse-order) pass assigns
every surface layer exactly the depth the opaque (forward-order) pass
assigned it: starting from the counter the opaque pass left behind, the
transparent pass produces exactly the reversed assignment list (so the
per-layer depths coincide, and the same `(layer, depth)` pairs occur in
both), the opaque pass advances the counter by one quantum per surface
layer, and the transparent pass returns it to its starting value. -/
theorem c9_transparent_pass_mirrors_opaque_depths (t : LTree) (d : ℚ) :
    transparentPassT t (opaquePassT t d).2 = ((opaquePassT t d).1.reverse, d)
    ∧ (∀ i δ, (i, δ) ∈ (transparentPassT t (opaquePassT t d).2).1
        ↔ (i, δ) ∈ (opaquePassT t d).1)
    ∧ (opaquePassT t d).2 = d + surfaceCountT t * DEPTH_QUANTUM := by
  refine ⟨transparentPassT_mirror t d, ?_, opaquePassT_final t d⟩
  intro i δ
  rw [transparentPassT_mirror t d]
  simp

/-! ## Claim C6 — effect of `remove_from_parent` -/

/-- C6: for an attached layer `c`, `remove_from_parent` removes exactly
`c`'s `LayerTreeInfo` and leaves the geometry and surface stores untouched;
when `c`'s parent is `NativeHost` it only calls `Backend::unhost_layer`;
when the parent is a layer `p` it calls `Backend::remove_from_superlayer`
and splices `c` out: the previous sibling's `next_sibling` and the next
sibling's `prev_sibling` are repaired, `p`'s `first_child`/`last_child` are
updated when `c` was first/last, all other tree entries and containers are
untouched, and `c`'s own container/geometry/surface components survive. -/
theorem c6_remove_from_parent_effect (s : Ctx) (c : Nat) (info : LayerTreeInfo)
    (h : s.tree.get c = some info) :
    (info.parent = .nativeHost →
      s.removeFromParent c
        = some { s with tree := s.tree.erase c,
                        calls := s.calls ++ [.unhostLayer c] })
    ∧ (∀ p, info.parent = .layer p →
        ∀ s', s.removeFromParent c = some s' →
          s'.tree.get c = none
          ∧ s'.geometry = s.geometry
          ∧ s'.surface = s.surface
          ∧ s'.next_layer_id = s.next_layer_id
          ∧ s'.calls = s.calls ++ [.removeFromSuperlayer c p]
          ∧ (∀ l, l ≠ c → some l ≠ info.prev_sibling →
              some l ≠ info.next_sibling → s'.tree.get l = s.tree.get l)
          ∧ (∀ q, info.prev_sibling = some q → some q ≠ info.next_sibling →
              s'.tree.get q = (s.tree.get q).map
                (fun ti => { ti with next_sibling := info.next_sibling }))
          ∧ (∀ q, info.next_sibling = some q → some q ≠ info.prev_sibling →
              s'.tree.get q = (s.tree.get q).map
                (fun ti => { ti with prev_sibling := info.prev_sibling }))
          ∧ (∀ l, l ≠ p → s'.containers.get l = s.containers.get l)
          ∧ s'.containers.get p = (s.containers.get p).map
              (fun ci => { ci with
                first_child := if info.prev_sibling = none then info.next_sibling
                               else ci.first_child,
                last_child := if info.next_sibling = none then info.prev_sibling
                              else ci.last_child })) := by
  constructor
  · intro hpar
    unfold Ctx.removeFromParent
    rw [h]
    simp [hpar]
  · intro p hpar s' hrun
    unfold Ctx.removeFromParent at hrun
    rw [h] at hrun
    simp only [hpar] at hrun
    cases hprev : info.prev_sibling with
    | none =>
      cases hnext : info.next_sibling with
      | none =>
        -- prev = none, next = none: containers modified twice at p
        simp only [hprev, hnext] at hrun
        cases hm1 : s.containers.modify p
            (fun ci => { ci with first_child := none }) with
        | none => rw [hm1] at hrun; simp at hrun
        | some c1 =>
          rw [hm1] at hrun
          simp only [Option.map_some'] at hrun
          cases hm2 : c1.modify p (fun ci => { ci with last_child := none }) with
          | none => rw [hm2] at hrun; simp at hrun
          | some c2 =>
            rw [hm2] at hrun
            simp only [Option.map_some', Option.some.injEq] at hrun
            subst hrun
            refine ⟨?_, rfl, rfl, rfl, rfl, ?_, ?_, ?_, ?_, ?_⟩
            · rw [LayerMap.get_erase, if_pos rfl]
            · intro l hl _ _
              rw [LayerMap.get_erase, if_neg (Ne.symm hl)]
            · intro q hq _
              exact Option.noConfusion hq
            · intro q hq _
              exact Option.noConfusion hq
            · intro l hl
              rw [LayerMap.get_modify hm2, if_neg (Ne.symm hl),
                  LayerMap.get_modify hm1, if_neg (Ne.symm hl)]
            · rw [LayerMap.get_modify hm2, if_pos rfl,
                  LayerMap.get_modify hm1, if_pos rfl]
              cases s.containers.get p <;> simp
      | some nx =>
        -- prev = none, next = some nx
        simp only [hprev, hnext] at hrun
        cases hm1 : s.containers.modify p
            (fun ci => { ci with first_child := some nx }) with
        | none => rw [hm1] at hrun; simp at hrun
        | some c1 =>
          rw [hm1] at hrun
          simp only [Option.map_some'] at hrun
          cases hm2 : (s.tree.erase c).modify nx
              (fun ti => { ti with prev_sibling := none }) with
          | none => rw [hm2] at hrun; simp at hrun
          | some t2 =>
            rw [hm2] at hrun
            simp only [Option.map_some', Option.some.injEq] at hrun
            subst hrun
            have hnxc : nx ≠ c := by
              intro hq
              rw [hq] at hm2
              have hsm := LayerMap.modify_isSome hm2
              rw [LayerMap.get_erase, if_pos rfl] at hsm
              exact absurd hsm (by simp)
            refine ⟨?_, rfl, rfl, rfl, rfl, ?_, ?_, ?_, ?_, ?_⟩
            · rw [LayerMap.get_modify hm2, if_neg hnxc,
                  LayerMap.get_erase, if_pos rfl]
            · intro l hl _ hn
              have hln : nx ≠ l := fun hq => hn (by rw [hq])
              rw [LayerMap.get_modify hm2, if_neg hln,
                  LayerMap.get_erase, if_neg (Ne.symm hl)]
            · intro q hq _
              exact Option.noConfusion hq
            · intro q hq _
              obtain rfl := Option.some.inj hq
              rw [LayerMap.get_modify hm2, if_pos rfl,
                  LayerMap.get_erase, if_neg (Ne.symm hnxc)]
            · intro l hl
              rw [LayerMap.get_modify hm1, if_neg (Ne.symm hl)]
            · rw [LayerMap.get_modify hm1, if_pos rfl]
              cases s.containers.get p <;> simp
    | some pv =>
      cases hnext : info.next_sibling with
      | none =>
        -- prev = some pv, next = none
        simp only [hprev, hnext] at hrun
        cases hm1 : (s.tree.erase c).modify pv
            (fun ti => { ti with next_sibling := none }) with
        | none => rw [hm1] at hrun; simp at hrun
        | some t1 =>
          rw [hm1] at hrun
          simp only [Option.map_some'] at hrun
          cases hm2 : s.containers.modify p
              (fun ci => { ci with last_child := some pv }) with
          | none => rw [hm2] at hrun; simp at hrun
          | some c2 =>
            rw [hm2] at hrun
            simp only [Option.map_some', Option.some.injEq] at hrun
            subst hrun
            have hpvc : pv ≠ c := by
              intro hq
              rw [hq] at hm1
              have hsm := LayerMap.modify_isSome hm1
              rw [LayerMap.get_erase, if_pos rfl] at hsm
              exact absurd hsm (by simp)
            refine ⟨?_, rfl, rfl, rfl, rfl, ?_, ?_, ?_, ?_, ?_⟩
            · rw [LayerMap.get_modify hm1, if_neg hpvc,
                  LayerMap.get_erase, if_pos rfl]
            · intro l hl hp _
              have hlp : pv ≠ l := fun hq => hp (by rw [hq])
              rw [LayerMap.get_modify hm1, if_neg hlp,
                  LayerMap.get_erase, if_neg (Ne.symm hl)]
            · intro q hq _
              obtain rfl := Option.some.inj hq
              rw [LayerMap.get_modify hm1, if_pos rfl,
                  LayerMap.get_erase, if_neg (Ne.symm hpvc)]
            · intro q hq _
              exact Option.noConfusion hq
            · intro l hl
              rw [LayerMap.get_modify hm2, if_neg (Ne.symm hl)]
            · rw [LayerMap.get_modify hm2, if_pos rfl]
              cases s.containers.get p <;> simp
      | some nx =>
        -- prev = some pv, next = some nx: two tree modifications
        simp only [hprev, hnext] at hrun
        cases hm1 : (s.tree.erase c).modify pv
            (fun ti => { ti with next_sibling := some nx }) with
        | none => rw [hm1] at hrun; simp at hrun
        | some t1 =>
          rw [hm1] at hrun
          simp only [Option.map_some'] at hrun
          cases hm2 : t1.modify nx
              (fun ti => { ti with prev_sibling := some pv }) with
          | none => rw [hm2] at hrun; simp at hrun
          | some t2 =>
            rw [hm2] at hrun
            simp only [Option.map_some', Option.some.injEq] at hrun
            subst hrun
            have hpvc : pv ≠ c := by
              intro hq
              rw [hq] at hm1
              have hsm := LayerMap.modify_isSome hm1
              rw [LayerMap.get_erase, if_pos rfl] at hsm
              exact absurd hsm (by simp)
            have hnxc : nx ≠ c := by
              intro hq
              rw [hq] at hm2
              have hsm := LayerMap.modify_isSome hm2
              rw [LayerMap.get_modify hm1, if_neg hpvc,
                  LayerMap.get_erase, if_pos rfl] at hsm
              exact absurd hsm (by simp)
            refine ⟨?_, rfl, rfl, rfl, rfl, ?_, ?_, ?_, ?_, ?_⟩
            · rw [LayerMap.get_modify hm2, if_neg hnxc,
                  LayerMap.get_modify hm1, if_neg hpvc,
                  LayerMap.get_erase, if_pos rfl]
            · intro l hl hp hn
              have hlp : pv ≠ l := fun hq => hp (by rw [hq])
              have hln : nx ≠ l := fun hq => hn (by rw [hq])
              rw [LayerMap.get_modify hm2, if_neg hln,
                  LayerMap.get_modify hm1, if_neg hlp,
                  LayerMap.get_erase, if_neg (Ne.symm hl)]
            · intro q hq hqn
              obtain rfl := Option.some.inj hq
              have hqnx : nx ≠ pv := fun hq2 => hqn (by rw [hq2])
              rw [LayerMap.get_modify hm2, if_neg hqnx,
                  LayerMap.get_modify hm1, if_pos rfl,
                  LayerMap.get_erase, if_neg (Ne.symm hpvc)]
            · intro q hq hqp
              obtain rfl := Option.some.inj hq
              have hqpv : pv ≠ nx := fun hq2 => hqp (by rw [hq2])
              rw [LayerMap.get_modify hm2, if_pos rfl,
                  LayerMap.get_modify hm1, if_neg hqpv,
                  LayerMap.get_erase, if_neg (Ne.symm hnxc)]
            · intro l _
              rfl
            · cases s.containers.get p <;> simp

/-- A small concrete context: container 0 with children 1 and 2 as a correct
doubly linked sibling list. -/
def sC6 : Ctx :=
  { next_layer_id := 3,
    tree := ⟨[none,
      some ⟨.layer 0, none, some 2⟩,
      some ⟨.layer 0, some 1, none⟩]⟩,
    containers := ⟨[some ⟨some 1, some 2⟩]⟩,
    geometry := ⟨[]⟩, surface := ⟨[]⟩, calls := [] }

/-- The state after `remove_from_parent(1)` on `sC6`. -/
def sC6' : Ctx :=
  { next_layer_id := 3,
    tree := ⟨[none, none, some ⟨.layer 0, none, none⟩]⟩,
    containers := ⟨[some ⟨some 2, some 2⟩]⟩,
    geometry := ⟨[]⟩, surface := ⟨[]⟩,
    calls := [.removeFromSuperlayer 1 0] }

/-- Witness for C6: removing layer 1 (first child of container 0, with next
sibling 2) calls `remove_from_superlayer`, drops 1's tree component, leaves
geometry and surface untouched, and repairs `first_child` to 2. -/
theorem c6_remove_from_parent_effect_witness :
    sC6.removeFromParent 1 = some sC6'
    ∧ sC6'.tree.get 1 = none
    ∧ sC6'.geometry = sC6.geometry
    ∧ sC6'.surface = sC6.surface
    ∧ sC6'.calls = sC6.calls ++ [.removeFromSuperlayer 1 0] := by
  have happ := (c6_remove_from_parent_effect sC6 1 ⟨.layer 0, none, some 2⟩
      (by decide)).2 0 rfl sC6' (by decide)
  exact ⟨by decide, happ.1, happ.2.1, happ.2.2.1, happ.2.2.2.2.1⟩

/-! ## Claim C7 — `delete_layer` -/

/-- Shared lemma: a successful `remove_from_parent` leaves the removed layer
without a `LayerTreeInfo` entry. -/
theorem removeFromParent_get_self (s : Ctx) (c : Nat) (s' : Ctx)
    (hrun : s.removeFromParent c = some s') : s'.tree.get c = none := by
  unfold Ctx.removeFromParent at hrun
  cases hg : s.tree.get c with
  | none => rw [hg] at hrun; exact Option.noConfusion hrun
  | some old =>
    rw [hg] at hrun
    cases hpar : old.parent with
    | nativeHost =>
      simp only [hpar, Option.some.injEq] at hrun
      subst hrun
      rw [LayerMap.get_erase, if_pos rfl]
    | layer p =>
      simp only [hpar] at hrun
      cases hprev : old.prev_sibling with
      | none =>
        simp only [hprev] at hrun
        cases hm1 : s.containers.modify p
            (fun ci => { ci with first_child := old.next_sibling }) with
        | none => rw [hm1] at hrun; simp at hrun
        | some c1 =>
          rw [hm1] at hrun
          simp only [Option.map_some'] at hrun
          cases hnext : old.next_sibling with
          | none =>
            simp only [hnext] at hrun
            cases hm2 : c1.modify p
                (fun ci => { ci with last_child := none }) with
            | none => rw [hm2] at hrun; simp at hrun
            | some c2 =>
              rw [hm2] at hrun
              simp only [Option.map_some', Option.some.injEq] at hrun
              subst hrun
              rw [LayerMap.get_erase, if_pos rfl]
          | some nx =>
            simp only [hnext] at hrun
            cases hm2 : (s.tree.erase c).modify nx
                (fun ti => { ti with prev_sibling := none }) with
            | none => rw [hm2] at hrun; simp at hrun
            | some t2 =>
              rw [hm2] at hrun
              simp only [Option.map_some', Option.some.injEq] at hrun
              subst hrun
              have hnxc : nx ≠ c := by
                intro hq
                rw [hq] at hm2
                have hsm := LayerMap.modify_isSome hm2
                rw [LayerMap.get_erase, if_pos rfl] at hsm
                exact absurd hsm (by simp)
              rw [LayerMap.get_modify hm2, if_neg hnxc,
                  LayerMap.get_erase, if_pos rfl]
      | some pv =>
        simp only [hprev] at hrun
        cases hm1 : (s.tree.erase c).modify pv
            (fun ti => { ti with next_sibling := old.next_sibling }) with
        | none => rw [hm1] at hrun; simp at hrun
        | some t1 =>
          rw [hm1] at hrun
          simp only [Option.map_some'] at hrun
          have hpvc : pv ≠ c := by
            intro hq
            rw [hq] at hm1
            have hsm := LayerMap.modify_isSome hm1
            rw [LayerMap.get_erase, if_pos rfl] at hsm
            exact absurd hsm (by simp)
          have ht1 : t1.get c = none := by
            rw [LayerMap.get_modify hm1, if_neg hpvc,
                LayerMap.get_erase, if_pos rfl]
          cases hnext : old.next_sibling with
          | none =>
            simp only [hnext] at hrun
            cases hm2 : s.containers.modify p
                (fun ci => { ci with last_child := some pv }) with
            | none => rw [hm2] at hrun; simp at hrun
            | some c2 =>
              rw [hm2] at hrun
              simp only [Option.map_some', Option.some.injEq] at hrun
              subst hrun
              exact ht1
          | some nx =>
            simp only [hnext] at hrun
            cases hm2 : t1.modify nx
                (fun ti => { ti with prev_sibling := some pv }) with
            | none => rw [hm2] at hrun; simp at hrun
            | some t2 =>
              rw [hm2] at hrun
              simp only [Option.map_some', Option.some.injEq] at hrun
              subst hrun
              have hnxc : nx ≠ c := by
                intro hq
                rw [hq] at hm2
                have hsm := LayerMap.modify_isSome hm2
                rw [ht1] at hsm
                exact absurd hsm (by simp)
              rw [LayerMap.get_modify hm2, if_neg hnxc, ht1]

/-- C7: `delete_layer` on a layer that currently has a parent (any attached
layer, including hosted ones) fails — a fatal precondition violation; and
for a layer detached via `remove_from_parent`, a subsequent `delete_layer`
succeeds and leaves all four component stores (tree, container, geometry,
surface) with no entry for that layer. -/
theorem c7_delete_layer_contract (s : Ctx) (c : Nat) :
    (s.parentOf c ≠ none → s.deleteLayer c = none)
    ∧ (∀ s', s.removeFromParent c = some s' → (s'.deleteLayer c).isSome)
    ∧ (∀ s' s'', s.removeFromParent c = some s' → s'.deleteLayer c = some s'' →
        s''.tree.get c = none ∧ s''.containers.get c = none
        ∧ s''.geometry.get c = none ∧ s''.surface.get c = none) := by
  refine ⟨?_, ?_, ?_⟩
  · intro hp
    unfold Ctx.deleteLayer
    rw [if_neg hp]
  · intro s' hr
    have hdet : s'.parentOf c = none := by
      unfold Ctx.parentOf
      rw [removeFromParent_get_self s c s' hr]
      rfl
    unfold Ctx.deleteLayer
    rw [if_pos hdet]
    rfl
  · intro s' s'' hr hd
    have hdet : s'.parentOf c = none := by
      unfold Ctx.parentOf
      rw [removeFromParent_get_self s c s' hr]
      rfl
    unfold Ctx.deleteLayer at hd
    rw [if_pos hdet] at hd
    injection hd with hd
    subst hd
    refine ⟨?_, ?_, ?_, ?_⟩ <;> rw [LayerMap.get_erase, if_pos rfl]

/-- The state after `remove_from_parent(1)` then `delete_layer(1)` on
`sC6`. -/
def sC7'' : Ctx :=
  { next_layer_id := 3,
    tree := ⟨[none, none, some ⟨.layer 0, none, none⟩]⟩,
    containers := ⟨[some ⟨some 2, some 2⟩]⟩,
    geometry := ⟨[]⟩, surface := ⟨[]⟩,
    calls := [.removeFromSuperlayer 1 0, .deleteLayer 1] }

/-- Witness for C7: deleting layer 1 while it is still a child of container 0
fails; after `remove_from_parent(1)` the same deletion succeeds and every
component store has no entry for 1. -/
theorem c7_delete_layer_contract_witness :
    sC6.deleteLayer 1 = none
    ∧ sC6'.deleteLayer 1 = some sC7''
    ∧ sC7''.tree.get 1 = none ∧ sC7''.containers.get 1 = none
    ∧ sC7''.geometry.get 1 = none ∧ sC7''.surface.get 1 = none := by
  have h1 : sC6.removeFromParent 1 = some sC6' := by decide
  have h2 : sC6'.deleteLayer 1 = some sC7'' := by decide
  have h3 := (c7_delete_layer_contract sC6 1).2.2 sC6' sC7'' h1 h2
  exact ⟨(c7_delete_layer_contract sC6 1).1 (by decide), h2,
    h3.1, h3.2.1, h3.2.2.1, h3.2.2.2⟩

end Planeshift
